import Mathlib

/-!
Shallow embedding of `src/core/collectionwrapper.js` (class `CollectionWrapper`
of the mongoql repository): the fluent query-builder state, the fluent calls,
the mode decision and the plan compiler in `exec`, together with theorems
checking the specification's claims against this embedding.

Two models are given.  The main model is pure: the builder state carries the
values of the IR fields, and each fluent call is a state transformer (returning
`Except` where the source throws).  A second, heap-indexed model near the end
makes JavaScript object references explicit, for the claims about copying
versus aliasing of the objects embedded in compiled stages.
-/

namespace MongoQL

/-- A JavaScript number as it can appear in the builder's pagination fields:
either an integer or `NaN` (the result of `Number(x)` on non-numeric input).
Non-integral doubles do not occur in the modelled code paths. -/
inductive JsNum where
  | nan
  | int (i : Int)
deriving DecidableEq

/-- A JavaScript value, restricted to the forms the modelled code inspects:
`null`, booleans, (integer) numbers, strings and plain objects.  An object is
an insertion-ordered association list of string keys to values, mirroring JS
property order. -/
inductive JsVal where
  | vNull
  | vBool (b : Bool)
  | vNum (i : Int)
  | vStr (s : String)
  | vObj (fields : List (String × JsVal))

/-- A plain JS object: insertion-ordered key/value pairs (assumed key-unique,
as runtime JS objects are). -/
abbrev Obj := List (String × JsVal)

/-- JS truthiness (the negation of `!x`) for the modelled value forms:
`null`, `false`, `0` and the empty string are falsy, all else is truthy. -/
def truthy : JsVal → Bool
  | .vNull => false
  | .vBool b => b
  | .vNum i => i != 0
  | .vStr s => s != ""
  | .vObj _ => true

/-- `typeof v === "object" && v !== null` for the modelled value forms. -/
def isObject : JsVal → Bool
  | .vObj _ => true
  | _ => false

/-- JS property write `o[k] = v` on a key-unique object: an existing key keeps
its position and is updated in place, a new key is appended at the end. -/
def setKey : Obj → String → JsVal → Obj
  | [], k, v => [(k, v)]
  | (k', v') :: rest, k, v =>
      if k' = k then (k, v) :: rest else (k', v') :: setKey rest k v

/-- Property read: the value stored under `k`, if any. -/
def lookupKey : Obj → String → Option JsVal
  | [], _ => none
  | (k', v') :: rest, k => if k' = k then some v' else lookupKey rest k

/-- `Object.assign(target, src)`: each own key of `src`, in order, is written
into `target` (shallow merge, last write wins). -/
def objAssign (target src : Obj) : Obj :=
  src.foldl (fun t p => setKey t p.1 p.2) target

/-- Value of a digit string, given an accumulator; `none` on a non-digit. -/
def digitsVal : List Char → Nat → Option Nat
  | [], acc => some acc
  | c :: rest, acc =>
      if c.isDigit then digitsVal rest (acc * 10 + (c.toNat - 48)) else none

/-- JS `Number(s)` for a string: a whitespace-only string is `0`, an
optionally signed integer literal is its value, anything else is `NaN`
(non-integral literals do not occur in the modelled code paths). -/
def strToNumber (s : String) : JsNum :=
  let cs := ((s.data.dropWhile (· == ' ')).reverse.dropWhile (· == ' ')).reverse
  match cs with
  | [] => .int 0
  | '-' :: rest =>
      match rest with
      | [] => .nan
      | _ =>
          match digitsVal rest 0 with
          | some n => .int (-(n : Int))
          | none => .nan
  | _ =>
      match digitsVal cs 0 with
      | some n => .int (n : Int)
      | none => .nan

/-- JS `Number(v)` coercion on the modelled value forms. -/
def toNumber : JsVal → JsNum
  | .vNull => .int 0
  | .vBool b => .int (if b then 1 else 0)
  | .vNum i => .int i
  | .vStr s => strToNumber s
  | .vObj _ => .nan

/-- An error thrown by a fluent call (`throw new Error(msg)`). -/
inductive JsErr where
  | validation (msg : String)
deriving DecidableEq

/-- The builder's fluent query state, exactly the instance fields that
`_resetState` initialises plus the `_addFields` field that `addFields` and
`selectAllWithAlias` create (and which `_resetState` does *not* assign —
`addFields = none` models the field being absent/`undefined`). -/
structure State where
  query : Obj
  projection : Option Obj
  sort : Option Obj
  skipCount : Option JsNum
  limitCount : Option JsNum
  joinSpec : Option Obj
  groupSpec : Option Obj
  havingFilter : Option Obj
  isAggregation : Bool
  addFields : Option Obj

/-- `_resetState()`: reassigns every query-state field to its initial value.
The `_addFields` field is not among the assignments in the source, so it
survives a reset unchanged. -/
def resetState (s : State) : State :=
  { query := [], projection := none, sort := none, skipCount := none,
    limitCount := none, joinSpec := none, groupSpec := none,
    havingFilter := none, isAggregation := false, addFields := s.addFields }

/-- The state of a freshly constructed wrapper (the constructor runs
`_resetState()` on an instance where `_addFields` is still absent). -/
def initState : State :=
  { query := [], projection := none, sort := none, skipCount := none,
    limitCount := none, joinSpec := none, groupSpec := none,
    havingFilter := none, isAggregation := false, addFields := none }

/-- One element of the array passed to `select`: a string, an object, or any
other value (which the loop in `select` silently skips). -/
inductive SelectItem where
  | str (s : String)
  | obj (o : Obj)
  | other (v : JsVal)

/-- `fields.includes("*")` membership test on one item (strict equality with
the string `"*"`). -/
def isStar : SelectItem → Bool
  | .str s => s == "*"
  | _ => false

/-- The body of `select`'s inner loop over `Object.entries(item)`: an entry
with a string value is an alias `proj[v] = "$k"`, any other value is written
through as `proj[k] = v`; both set `hasAggregationFeatures`. -/
def selectEntry (acc : Obj × Bool) (kv : String × JsVal) : Obj × Bool :=
  match kv.2 with
  | .vStr a => (setKey acc.1 a (.vStr ("$" ++ kv.1)), true)
  | v => (setKey acc.1 kv.1 v, true)

/-- One iteration of `select`'s outer loop, threading
`(proj, hasAggregationFeatures, this._isAggregation)`: a string item projects
`proj[item.trim()] = 1`; an object item folds `selectEntry` over its entries
and then executes `this._isAggregation = hasAggregationFeatures`; any other
item is skipped. -/
def selectStep (acc : Obj × Bool × Bool) (item : SelectItem) : Obj × Bool × Bool :=
  match item with
  | .str s => (setKey acc.1 s.trim (.vNum 1), acc.2.1, acc.2.2)
  | .obj o =>
      let pa := o.foldl selectEntry (acc.1, acc.2.1)
      (pa.1, pa.2, pa.2)
  | .other _ => acc

/-- `select(fields)`: an empty array or one containing `"*"` clears the
projection; otherwise the loop builds `proj` and finally
`this.projection = proj` and, if aggregation features were seen,
`this._isAggregation = true`. -/
def select (fields : List SelectItem) (s : State) : State :=
  if fields.isEmpty || fields.any isStar then
    { s with projection := none }
  else
    let acc := fields.foldl selectStep ([], false, s.isAggregation)
    let s' := { s with projection := some acc.1, isAggregation := acc.2.2 }
    if acc.2.1 then { s' with isAggregation := true } else s'

/-- `addFields(fields)`: rejects falsy or non-object input, otherwise stores
the map in `this._addFields` and forces aggregation mode. -/
def addFields (fields : JsVal) (s : State) : Except JsErr State :=
  match fields with
  | .vObj o => .ok { s with addFields := some o, isAggregation := true }
  | _ => .error (.validation "addFields expects an object")

/-- `selectAllWithAlias(aliasMap)`: clears the projection and rebuilds
`this._addFields` as `alias ↦ "$source"` for each entry, forcing aggregation
mode.  (Alias names are modelled as strings, as in every documented use.) -/
def selectAllWithAlias (aliasMap : List (String × String)) (s : State) : State :=
  { s with projection := none,
           addFields :=
             some (aliasMap.foldl (fun m p => setKey m p.2 (.vStr ("$" ++ p.1))) []),
           isAggregation := true }

/-- `where(filter)`: rejects falsy or non-object input, otherwise shallow
merges the filter into `this.query` (`Object.assign`, last write wins). -/
def where' (filter : JsVal) (s : State) : Except JsErr State :=
  match filter with
  | .vObj f => .ok { s with query := objAssign s.query f }
  | _ => .error (.validation ".where expects an object")

/-- `direction === "desc" || direction === -1 ? -1 : 1`. -/
def sortDir (direction : JsVal) : Int :=
  match direction with
  | .vStr d => if d = "desc" then -1 else 1
  | .vNum i => if i = -1 then -1 else 1
  | _ => 1

/-- `orderBy(field, direction)`: a falsy field is a no-op; otherwise
direction `"desc"` or `-1` maps to `-1`, anything else to `1`, and
`this.sort[field] = dir` with `this.sort` lazily initialised to `{}`. -/
def orderBy (field : String) (direction : JsVal) (s : State) : State :=
  if field = "" then s
  else { s with sort := some (setKey (s.sort.getD []) field (.vNum (sortDir direction))) }

/-- `limit(n)`: stores `Number(n)` unconditionally. -/
def limit (n : JsVal) (s : State) : State :=
  { s with limitCount := some (toNumber n) }

/-- `offset(n)`: stores `Number(n)` unconditionally. -/
def offset (n : JsVal) (s : State) : State :=
  { s with skipCount := some (toNumber n) }

/-- `skip(n)` is an alias for `offset(n)`. -/
def skip (n : JsVal) (s : State) : State := offset n s

/-- `join(lookupSpec)`: rejects falsy or non-object input, otherwise stores
the spec verbatim in `this.joinSpec` and forces aggregation mode. -/
def join (lookupSpec : JsVal) (s : State) : Except JsErr State :=
  match lookupSpec with
  | .vObj o => .ok { s with joinSpec := some o, isAggregation := true }
  | _ => .error (.validation "join expects a $lookup spec object")

/-- `groupBy(fieldOrSpec)`: a falsy argument throws; a string expands to
`{ _id: "$field", items: { $push: "$$ROOT" } }`; an object is stored
verbatim; anything else throws.  Either accepted form forces aggregation. -/
def groupBy (fieldOrSpec : JsVal) (s : State) : Except JsErr State :=
  if !(truthy fieldOrSpec) then
    .error (.validation "groupBy expects a field name or a group spec")
  else
    match fieldOrSpec with
    | .vStr f =>
        .ok { s with
                groupSpec := some [("_id", .vStr ("$" ++ f)),
                                   ("items", .vObj [("$push", .vStr "$$ROOT")])],
                isAggregation := true }
    | .vObj o => .ok { s with groupSpec := some o, isAggregation := true }
    | _ => .error (.validation "groupBy accepts string or object")

/-- `having(filter)`: rejects falsy or non-object input, otherwise stores the
post-group filter and forces aggregation mode. -/
def having (filter : JsVal) (s : State) : Except JsErr State :=
  match filter with
  | .vObj f => .ok { s with havingFilter := some f, isAggregation := true }
  | _ => .error (.validation ".having expects an object")

/-- `_projectionRequiresAggregation()`: true when some projection value is a
non-null object (an aggregation expression). -/
def projectionRequiresAggregation (s : State) : Bool :=
  match s.projection with
  | none => false
  | some p => p.any (fun kv => isObject kv.2)

/-- One stage of a compiled aggregation pipeline. -/
inductive Stage where
  | smatch (o : Obj)
  | lookup (o : Obj)
  | group (o : Obj)
  | sortBy (o : Obj)
  | skipBy (n : JsNum)
  | limitBy (n : JsNum)
  | project (o : Obj)

/-- The pipeline `exec` builds in aggregation mode: one conditional `push`
per IR field, in the source's fixed textual order. -/
def compilePipeline (s : State) : List Stage :=
  let pipeline : List Stage := []
  let pipeline := if 0 < s.query.length then pipeline ++ [Stage.smatch s.query] else pipeline
  let pipeline := match s.joinSpec with
    | some j => pipeline ++ [Stage.lookup j]
    | none => pipeline
  let pipeline := match s.groupSpec with
    | some g => pipeline ++ [Stage.group g]
    | none => pipeline
  let pipeline := match s.havingFilter with
    | some hf => pipeline ++ [Stage.smatch hf]
    | none => pipeline
  let pipeline := match s.sort with
    | some o => pipeline ++ [Stage.sortBy o]
    | none => pipeline
  let pipeline := match s.skipCount with
    | some n => pipeline ++ [Stage.skipBy n]
    | none => pipeline
  let pipeline := match s.limitCount with
    | some n => pipeline ++ [Stage.limitBy n]
    | none => pipeline
  match s.projection with
  | some p => pipeline ++ [Stage.project p]
  | none => pipeline

/-- The options bag `exec` passes to `find` in simple mode. -/
structure FindOpts where
  projection : Option Obj
  sort : Option Obj

/-- The plan `exec` dispatches to the adapter: either an aggregation pipeline
or a `find` with options plus the cursor's `skip`/`limit` modifiers. -/
inductive Plan where
  | aggregate (stages : List Stage)
  | find (filter : Obj) (opts : FindOpts) (skipArg : Option JsNum) (limitArg : Option JsNum)

/-- The mode decision at the top of `exec`:
`this._isAggregation || this._projectionRequiresAggregation()`. -/
def execIsAggregation (s : State) : Bool :=
  s.isAggregation || projectionRequiresAggregation s

/-- The plan `exec` compiles and dispatches, as a function of the state. -/
def execPlan (s : State) : Plan :=
  if execIsAggregation s then
    .aggregate (compilePipeline s)
  else
    .find (if 0 < s.query.length then s.query else [])
      { projection := s.projection, sort := s.sort } s.skipCount s.limitCount

/-- `exec()`: compiles the plan, dispatches it to the adapter and awaits the
round trip.  Only on success does it run `_resetState()`; a rejected round
trip propagates the error with the state untouched (there is no
`try`/`finally`). -/
def exec {ε : Type} (s : State) (adapter : Plan → Except ε (List JsVal)) :
    Except ε (List JsVal) × State :=
  match adapter (execPlan s) with
  | .ok docs => (.ok docs, resetState s)
  | .error e => (.error e, s)

/-- A fluent call together with its argument, for reasoning about chains. -/
inductive Call where
  | select (fields : List SelectItem)
  | addFields (v : JsVal)
  | selectAllWithAlias (m : List (String × String))
  | where' (v : JsVal)
  | orderBy (field : String) (direction : JsVal)
  | limit (n : JsVal)
  | offset (n : JsVal)
  | skip (n : JsVal)
  | join (v : JsVal)
  | groupBy (v : JsVal)
  | having (v : JsVal)

/-- Apply one fluent call to the state (errors are thrown validation
errors). -/
def applyCall (s : State) : Call → Except JsErr State
  | .select fields => .ok (select fields s)
  | .addFields v => addFields v s
  | .selectAllWithAlias m => .ok (selectAllWithAlias m s)
  | .where' v => where' v s
  | .orderBy f d => .ok (orderBy f d s)
  | .limit n => .ok (limit n s)
  | .offset n => .ok (offset n s)
  | .skip n => .ok (skip n s)
  | .join v => join v s
  | .groupBy v => groupBy v s
  | .having v => having v s

/-- Apply a chain of fluent calls left to right; the first thrown error
aborts the chain. -/
def applyCalls : List Call → State → Except JsErr State
  | [], s => .ok s
  | c :: cs, s =>
      match applyCall s c with
      | .ok s' => applyCalls cs s'
      | .error e => .error e

end MongoQL

namespace MongoQL

/-! ### Association-list lemmas -/

theorem lookupKey_setKey (o : Obj) (k k' : String) (v : JsVal) :
    lookupKey (setKey o k v) k' = if k = k' then some v else lookupKey o k' := by
  induction o with
  | nil =>
      by_cases h : k = k' <;> simp [setKey, lookupKey, h]
  | cons p rest ih =>
      obtain ⟨pk, pv⟩ := p
      by_cases hk : pk = k
      · subst hk
        by_cases h : pk = k' <;> simp [setKey, lookupKey, h]
      · by_cases h : pk = k'
        · subst h
          have hne : ¬ k = pk := fun hh => hk hh.symm
          simp [setKey, lookupKey, hk, hne]
        · simp [setKey, lookupKey, hk, h, ih]

theorem setKey_length_pos (o : Obj) (k : String) (v : JsVal) :
    0 < (setKey o k v).length := by
  cases o with
  | nil => simp [setKey]
  | cons p rest =>
      obtain ⟨pk, pv⟩ := p
      by_cases h : pk = k <;> simp [setKey, h]

theorem foldl_setKey_length_pos (l : Obj) :
    ∀ (t : Obj), 0 < t.length →
      0 < (l.foldl (fun t q => setKey t q.1 q.2) t).length := by
  induction l with
  | nil => intro t h; simpa using h
  | cons q qs ih =>
      intro t _
      exact ih (setKey t q.1 q.2) (setKey_length_pos t q.1 q.2)

theorem objAssign_length_pos (t f : Obj) (hf : f ≠ []) :
    0 < (objAssign t f).length := by
  match f with
  | [] => exact absurd rfl hf
  | p :: tail =>
      show 0 < ((p :: tail).foldl (fun t q => setKey t q.1 q.2) t).length
      simp only [List.foldl_cons]
      exact foldl_setKey_length_pos tail _ (setKey_length_pos t p.1 p.2)

theorem mem_setKey {x : String × JsVal} :
    ∀ {o : Obj} {k : String} {v : JsVal}, x ∈ setKey o k v → x ∈ o ∨ x = (k, v) := by
  intro o
  induction o with
  | nil =>
      intro k v h
      right
      simpa [setKey] using h
  | cons p rest ih =>
      intro k v h
      obtain ⟨pk, pv⟩ := p
      by_cases hk : pk = k
      · simp only [setKey, hk, if_pos rfl] at h
        rcases List.mem_cons.mp h with h | h
        · exact Or.inr h
        · exact Or.inl (List.mem_cons_of_mem _ h)
      · simp only [setKey, if_neg hk] at h
        rcases List.mem_cons.mp h with h | h
        · exact Or.inl (h ▸ List.mem_cons_self _ _)
        · rcases ih h with h | h
          · exact Or.inl (List.mem_cons_of_mem _ h)
          · exact Or.inr h

/-! ### Easy claim theorems: C4, C5, C6, C9, C10 -/

/-- The concrete `addFields` map used to exhibit the dead `_addFields`
field. -/
def c4Map : Obj := [("writer", .vStr "$author")]

/-- Claim C4 (code bug evidence): `addFields({writer: "$author"})` (and the
equivalent `selectAllWithAlias({author: "writer"})`) forces aggregation mode,
yet the dispatched pipeline is empty — `exec` never reads `_addFields`, so no
stage realizes any map entry. -/
theorem c4_addFields_never_compiled :
    applyCalls [Call.addFields (.vObj c4Map)] initState =
      .ok { initState with addFields := some c4Map, isAggregation := true } ∧
    execPlan { initState with addFields := some c4Map, isAggregation := true } =
      .aggregate [] ∧
    applyCalls [Call.selectAllWithAlias [("author", "writer")]] initState =
      .ok { initState with addFields := some c4Map, isAggregation := true } ∧
    execIsAggregation { initState with addFields := some c4Map, isAggregation := true } = true :=
  ⟨rfl, rfl, rfl, rfl⟩

/-- Claim C5 counterexample: `limit(-5)` and `offset("abc")` raise no error at
call time; the negative number is stored as-is and the non-numeric argument is
stored as `NaN`. -/
theorem c5_counterexample :
    applyCall initState (Call.limit (.vNum (-5))) =
      .ok { initState with limitCount := some (.int (-5)) } ∧
    applyCall initState (Call.offset (.vStr "abc")) =
      .ok { initState with skipCount := some .nan } :=
  ⟨rfl, rfl⟩

/-- Claim C5 (amended): `limit(n)` and `offset(n)` never raise; each stores
`Number(n)` unconditionally, whatever the argument. -/
theorem c5_limit_offset_store_unconditionally (s : State) (n : JsVal) :
    applyCall s (Call.limit n) = .ok { s with limitCount := some (toNumber n) } ∧
    applyCall s (Call.offset n) = .ok { s with skipCount := some (toNumber n) } ∧
    applyCall s (Call.skip n) = .ok { s with skipCount := some (toNumber n) } :=
  ⟨rfl, rfl, rfl⟩

/-- Claim C6 counterexample: `join({})` — an object missing all four required
keys — is accepted without error and stored verbatim. -/
theorem c6_counterexample :
    applyCall initState (Call.join (.vObj [])) =
      .ok { initState with joinSpec := some [], isAggregation := true } :=
  rfl

/-- Claim C6 (amended): `join` validates only that its argument is an object;
any object is accepted and stored verbatim regardless of which keys it has,
and any non-object argument raises. -/
theorem c6_join_checks_object_only :
    (∀ (s : State) (o : Obj), applyCall s (Call.join (.vObj o)) =
        .ok { s with joinSpec := some o, isAggregation := true }) ∧
    (∀ (s : State) (v : JsVal), isObject v = false →
        applyCall s (Call.join v) =
          .error (.validation "join expects a $lookup spec object")) := by
  refine ⟨fun s o => rfl, fun s v hv => ?_⟩
  cases v <;> simp_all [applyCall, join, isObject]

/-- Witness for C6 (amended): a fully-specified join spec is accepted, a
numeric argument raises. -/
theorem c6_join_checks_object_only_witness :
    applyCall initState (Call.join (.vObj [("from", .vStr "authors")])) =
      .ok { initState with joinSpec := some [("from", .vStr "authors")],
                           isAggregation := true } ∧
    applyCall initState (Call.join (.vNum 3)) =
      .error (.validation "join expects a $lookup spec object") :=
  ⟨c6_join_checks_object_only.1 initState [("from", .vStr "authors")],
   c6_join_checks_object_only.2 initState (.vNum 3) rfl⟩

/-- Claim C9 counterexample: the empty string is a string argument, but
`groupBy("")` throws (the falsy check rejects it) instead of storing a group
spec. -/
theorem c9_counterexample :
    applyCall initState (Call.groupBy (.vStr "")) =
      .error (.validation "groupBy expects a field name or a group spec") :=
  rfl

theorem groupBy_string_ok (s : State) (f : String) (hf : f ≠ "") :
    applyCall s (Call.groupBy (.vStr f)) =
      .ok { s with
              groupSpec := some [("_id", .vStr ("$" ++ f)),
                                 ("items", .vObj [("$push", .vStr "$$ROOT")])],
              isAggregation := true } := by
  simp [applyCall, groupBy, truthy, hf]

/-- Claim C9 (amended): for every non-empty string `f`, `groupBy(f)` stores
exactly `{_id: "$f", items: {$push: "$$ROOT"}}` and nothing else. -/
theorem c9_groupBy_string_expansion (s : State) (f : String) (hf : f ≠ "") :
    applyCall s (Call.groupBy (.vStr f)) =
      .ok { s with
              groupSpec := some [("_id", .vStr ("$" ++ f)),
                                 ("items", .vObj [("$push", .vStr "$$ROOT")])],
              isAggregation := true } :=
  groupBy_string_ok s f hf

/-- Witness for C9 (amended): instantiated at `groupBy("genre")`. -/
theorem c9_groupBy_string_expansion_witness :
    applyCall initState (Call.groupBy (.vStr "genre")) =
      .ok { initState with
              groupSpec := some [("_id", .vStr "$genre"),
                                 ("items", .vObj [("$push", .vStr "$$ROOT")])],
              isAggregation := true } :=
  c9_groupBy_string_expansion initState "genre" (by decide)

/-- Claim C10: when the adapter's round trip rejects, `exec` propagates the
error and the builder state is left exactly as accumulated — `_resetState` is
never reached, so the failed chain's whole IR flows into the next chain. -/
theorem c10_failed_exec_keeps_state {ε : Type} (s : State) (e : ε)
    (adapter : Plan → Except ε (List JsVal))
    (h : adapter (execPlan s) = .error e) :
    exec s adapter = (.error e, s) := by
  simp [exec, h]

/-- Witness for C10: a chain with a filter, a sort and a limit whose adapter
rejects keeps all three in the state. -/
theorem c10_failed_exec_keeps_state_witness :
    exec { initState with
             query := [("genre", .vStr "Sci-Fi")],
             sort := some [("title", .vNum 1)],
             limitCount := some (.int 5) }
        (fun _ => .error (JsErr.validation "adapter failure")) =
      (.error (JsErr.validation "adapter failure"),
       { initState with
           query := [("genre", .vStr "Sci-Fi")],
           sort := some [("title", .vNum 1)],
           limitCount := some (.int 5) }) :=
  c10_failed_exec_keeps_state _ _ _ rfl

end MongoQL

namespace MongoQL

/-! ### Claim C2: the mode decision -/

/-- `true` for select items that are JS objects. -/
def isObjItem : SelectItem → Bool
  | .obj _ => true
  | _ => false

/-- A select item other than an empty object.  A select call whose object
items are all empty writes `this._isAggregation = false` (line 79 of the
source runs with `hasAggregationFeatures` still `false`), so such items are
excluded from the clean flag characterisation. -/
def goodItem : SelectItem → Bool
  | .obj o => !o.isEmpty
  | _ => true

/-- Chains whose select calls contain no empty-object items. -/
def Call.good : Call → Bool
  | .select fields => fields.all goodItem
  | _ => true

/-- The calls that, when they succeed, set the `_isAggregation` flag:
`join`, `groupBy`, `having`, `addFields`, `selectAllWithAlias`, and a
processed `select` containing an object item. -/
def Call.isAggInducing : Call → Bool
  | .select fields => !(fields.isEmpty || fields.any isStar) && fields.any isObjItem
  | .addFields _ => true
  | .selectAllWithAlias _ => true
  | .join _ => true
  | .groupBy _ => true
  | .having _ => true
  | _ => false

/-- The `(proj, hasAggregationFeatures)` part of one `select` loop
iteration, without the flag assignment. -/
def selectPA (pa : Obj × Bool) (item : SelectItem) : Obj × Bool :=
  match item with
  | .str s => (setKey pa.1 s.trim (.vNum 1), pa.2)
  | .obj o => o.foldl selectEntry pa
  | .other _ => pa

theorem foldl_selectStep_pa (items : List SelectItem) :
    ∀ (p : Obj) (h f : Bool),
      ((items.foldl selectStep (p, h, f)).1, (items.foldl selectStep (p, h, f)).2.1)
        = items.foldl selectPA (p, h) := by
  induction items with
  | nil => intro p h f; rfl
  | cons it rest ih =>
      intro p h f
      cases it with
      | str s => simpa [selectStep, selectPA] using ih _ _ _
      | obj o =>
          simp only [List.foldl_cons, selectStep, selectPA]
          have := ih (o.foldl selectEntry (p, h)).1 (o.foldl selectEntry (p, h)).2
            (o.foldl selectEntry (p, h)).2
          simpa using this
      | other v => simpa [selectStep, selectPA] using ih _ _ _

theorem foldl_selectEntry_snd (o : Obj) :
    ∀ pa : Obj × Bool, (o.foldl selectEntry pa).2 = (pa.2 || !o.isEmpty) := by
  induction o with
  | nil => intro pa; simp
  | cons q qs ih =>
      intro pa
      have hq : (selectEntry pa q).2 = true := by
        obtain ⟨k, v⟩ := q
        cases v <;> rfl
      simp [List.foldl_cons, ih, hq]

/-- Whether one select item switches `hasAggregationFeatures` on. -/
def itemTriggers : SelectItem → Bool
  | .obj o => !o.isEmpty
  | _ => false

theorem selectPA_snd (pa : Obj × Bool) (it : SelectItem) :
    (selectPA pa it).2 = (pa.2 || itemTriggers it) := by
  cases it <;> simp [selectPA, itemTriggers, foldl_selectEntry_snd]

theorem foldl_selectPA_snd (items : List SelectItem) :
    ∀ pa : Obj × Bool, (items.foldl selectPA pa).2 = (pa.2 || items.any itemTriggers) := by
  induction items with
  | nil => intro pa; simp
  | cons it rest ih =>
      intro pa
      simp [List.foldl_cons, ih, selectPA_snd, Bool.or_assoc]

theorem any_itemTriggers_of_good (fields : List SelectItem)
    (hg : fields.all goodItem = true) :
    fields.any itemTriggers = fields.any isObjItem := by
  induction fields with
  | nil => rfl
  | cons it rest ih =>
      simp only [List.all_cons, Bool.and_eq_true] at hg
      have hit : itemTriggers it = isObjItem it := by
        cases it with
        | obj o => simpa [goodItem, itemTriggers, isObjItem] using hg.1
        | str s => rfl
        | other v => rfl
      simp [List.any_cons, hit, ih hg.2]

theorem foldl_selectStep_flag_of_no_obj (items : List SelectItem) :
    ∀ (p : Obj) (h f : Bool), (∀ it ∈ items, isObjItem it = false) →
      (items.foldl selectStep (p, h, f)).2.2 = f := by
  induction items with
  | nil => intro p h f _; rfl
  | cons it rest ih =>
      intro p h f hno
      cases it with
      | str s =>
          simpa [selectStep] using
            ih _ _ _ (fun x hx => hno x (List.mem_cons_of_mem _ hx))
      | obj o => exact absurd (hno _ (List.mem_cons_self _ _)) (by simp [isObjItem])
      | other v =>
          simpa [selectStep] using
            ih _ _ _ (fun x hx => hno x (List.mem_cons_of_mem _ hx))

theorem select_isAgg (fields : List SelectItem) (s : State)
    (hg : fields.all goodItem = true) :
    (select fields s).isAggregation
      = (s.isAggregation || Call.isAggInducing (.select fields)) := by
  by_cases he : (fields.isEmpty || fields.any isStar) = true
  · simp [select, he, Call.isAggInducing]
  · have hacc := foldl_selectStep_pa fields [] false s.isAggregation
    have hsnd : (fields.foldl selectStep ([], false, s.isAggregation)).2.1
        = fields.any isObjItem := by
      have := congrArg Prod.snd hacc
      simp only at this
      rw [this, foldl_selectPA_snd]
      simp [any_itemTriggers_of_good fields hg]
    by_cases hobj : fields.any isObjItem = true
    · simp [select, he, hsnd, hobj, Call.isAggInducing]
    · have hno : ∀ it ∈ fields, isObjItem it = false := by
        intro it hit
        by_contra hcon
        exact hobj (List.any_eq_true.mpr ⟨it, hit, by simpa using hcon⟩)
      have hflag := foldl_selectStep_flag_of_no_obj fields [] false s.isAggregation hno
      simp [select, he, hsnd, hobj, hflag, Call.isAggInducing]

theorem foldl_selectPA_inv (items : List SelectItem) :
    ∀ pa : Obj × Bool,
      (pa.1.any (fun kv => isObject kv.2) = true → pa.2 = true) →
      ((items.foldl selectPA pa).1.any (fun kv => isObject kv.2) = true →
        (items.foldl selectPA pa).2 = true) := by
  induction items with
  | nil => intro pa h; exact h
  | cons it rest ih =>
      intro pa hinv
      refine ih (selectPA pa it) ?_
      cases it with
      | str s =>
          intro hany
          simp only [selectPA] at hany ⊢
          rcases List.any_eq_true.mp hany with ⟨x, hx, hPx⟩
          rcases mem_setKey hx with hx' | hx'
          · exact hinv (List.any_eq_true.mpr ⟨x, hx', hPx⟩)
          · subst hx'
            simp [isObject] at hPx
      | obj o =>
          cases o with
          | nil => intro hany; exact hinv hany
          | cons q qs =>
              intro _
              simp only [selectPA]
              rw [foldl_selectEntry_snd]
              simp
      | other v => intro hany; exact hinv hany

theorem select_projReq (fields : List SelectItem) (s : State) :
    projectionRequiresAggregation (select fields s) = true →
    (select fields s).isAggregation = true := by
  by_cases he : (fields.isEmpty || fields.any isStar) = true
  · simp [select, he, projectionRequiresAggregation]
  · intro hpr
    have hacc := foldl_selectStep_pa fields [] false s.isAggregation
    have hfst : (fields.foldl selectStep ([], false, s.isAggregation)).1
        = (fields.foldl selectPA ([], false)).1 := by
      have := congrArg Prod.fst hacc
      simpa using this
    have hsnd : (fields.foldl selectStep ([], false, s.isAggregation)).2.1
        = (fields.foldl selectPA ([], false)).2 := by
      have := congrArg Prod.snd hacc
      simpa using this
    have hany : (fields.foldl selectPA ([], false)).1.any (fun kv => isObject kv.2) = true := by
      simp only [select, he, if_neg] at hpr
      simp only [projectionRequiresAggregation] at hpr
      by_cases hb : (fields.foldl selectStep ([], false, s.isAggregation)).2.1 = true
      · rw [← hfst]
        simpa [select, he, hb, projectionRequiresAggregation] using hpr
      · rw [← hfst]
        simpa [select, he, hb, projectionRequiresAggregation] using hpr
    have := foldl_selectPA_inv fields ([], false) (by simp) hany
    have hflag : (fields.foldl selectStep ([], false, s.isAggregation)).2.1 = true := by
      rw [hsnd]; exact this
    simp [select, he, hflag]

end MongoQL

namespace MongoQL

theorem okStateInj {a b : State} (h : (Except.ok a : Except JsErr State) = .ok b) :
    a = b := by
  injection h

theorem applyCall_isAgg {s s' : State} {c : Call}
    (hok : applyCall s c = .ok s') (hg : Call.good c = true) :
    s'.isAggregation = (s.isAggregation || c.isAggInducing) := by
  cases c with
  | select fields =>
      have h := okStateInj hok
      subst h
      exact select_isAgg fields s (by simpa [Call.good] using hg)
  | addFields v =>
      cases v with
      | vObj o =>
          have h := okStateInj hok
          subst h
          simp [Call.isAggInducing]
      | vNull => exact absurd hok (by simp [applyCall, addFields])
      | vBool b => exact absurd hok (by simp [applyCall, addFields])
      | vNum i => exact absurd hok (by simp [applyCall, addFields])
      | vStr t => exact absurd hok (by simp [applyCall, addFields])
  | selectAllWithAlias m =>
      have h := okStateInj hok
      subst h
      simp [selectAllWithAlias, Call.isAggInducing]
  | where' v =>
      cases v with
      | vObj f =>
          have h := okStateInj hok
          subst h
          simp [Call.isAggInducing]
      | vNull => exact absurd hok (by simp [applyCall, where'])
      | vBool b => exact absurd hok (by simp [applyCall, where'])
      | vNum i => exact absurd hok (by simp [applyCall, where'])
      | vStr t => exact absurd hok (by simp [applyCall, where'])
  | orderBy f d =>
      have h := okStateInj hok
      subst h
      by_cases hf : f = "" <;> simp [orderBy, hf, Call.isAggInducing]
  | limit n =>
      have h := okStateInj hok
      subst h
      simp [limit, Call.isAggInducing]
  | offset n =>
      have h := okStateInj hok
      subst h
      simp [offset, Call.isAggInducing]
  | skip n =>
      have h := okStateInj hok
      subst h
      simp [skip, offset, Call.isAggInducing]
  | join v =>
      cases v with
      | vObj o =>
          have h := okStateInj hok
          subst h
          simp [Call.isAggInducing]
      | vNull => exact absurd hok (by simp [applyCall, join])
      | vBool b => exact absurd hok (by simp [applyCall, join])
      | vNum i => exact absurd hok (by simp [applyCall, join])
      | vStr t => exact absurd hok (by simp [applyCall, join])
  | groupBy v =>
      cases v with
      | vObj o =>
          have h := okStateInj hok
          subst h
          simp [Call.isAggInducing]
      | vStr f =>
          by_cases hf : f = ""
          · subst hf
            exact absurd hok (by simp [applyCall, groupBy, truthy])
          · rw [groupBy_string_ok s f hf] at hok
            have h := okStateInj hok
            subst h
            simp [Call.isAggInducing]
      | vNull => exact absurd hok (by simp [applyCall, groupBy, truthy])
      | vBool b =>
          cases b with
          | false => exact absurd hok (by simp [applyCall, groupBy, truthy])
          | true => exact absurd hok (by simp [applyCall, groupBy, truthy])
      | vNum i =>
          by_cases hi : i = 0
          · subst hi
            exact absurd hok (by simp [applyCall, groupBy, truthy])
          · exact absurd hok (by simp [applyCall, groupBy, truthy, hi])
  | having v =>
      cases v with
      | vObj o =>
          have h := okStateInj hok
          subst h
          simp [Call.isAggInducing]
      | vNull => exact absurd hok (by simp [applyCall, having])
      | vBool b => exact absurd hok (by simp [applyCall, having])
      | vNum i => exact absurd hok (by simp [applyCall, having])
      | vStr t => exact absurd hok (by simp [applyCall, having])

theorem applyCall_projReq {s s' : State} {c : Call}
    (hok : applyCall s c = .ok s')
    (hinv : projectionRequiresAggregation s = true → s.isAggregation = true) :
    projectionRequiresAggregation s' = true → s'.isAggregation = true := by
  cases c with
  | select fields =>
      have h := okStateInj hok
      subst h
      exact select_projReq fields s
  | addFields v =>
      cases v with
      | vObj o =>
          have h := okStateInj hok
          subst h
          intro _
          rfl
      | vNull => exact absurd hok (by simp [applyCall, addFields])
      | vBool b => exact absurd hok (by simp [applyCall, addFields])
      | vNum i => exact absurd hok (by simp [applyCall, addFields])
      | vStr t => exact absurd hok (by simp [applyCall, addFields])
  | selectAllWithAlias m =>
      have h := okStateInj hok
      subst h
      intro _
      rfl
  | where' v =>
      cases v with
      | vObj f =>
          have h := okStateInj hok
          subst h
          exact hinv
      | vNull => exact absurd hok (by simp [applyCall, where'])
      | vBool b => exact absurd hok (by simp [applyCall, where'])
      | vNum i => exact absurd hok (by simp [applyCall, where'])
      | vStr t => exact absurd hok (by simp [applyCall, where'])
  | orderBy f d =>
      have h := okStateInj hok
      subst h
      by_cases hf : f = ""
      · unfold orderBy
        rw [if_pos hf]
        exact hinv
      · unfold orderBy
        rw [if_neg hf]
        exact hinv
  | limit n =>
      have h := okStateInj hok
      subst h
      exact hinv
  | offset n =>
      have h := okStateInj hok
      subst h
      exact hinv
  | skip n =>
      have h := okStateInj hok
      subst h
      exact hinv
  | join v =>
      cases v with
      | vObj o =>
          have h := okStateInj hok
          subst h
          intro _
          rfl
      | vNull => exact absurd hok (by simp [applyCall, join])
      | vBool b => exact absurd hok (by simp [applyCall, join])
      | vNum i => exact absurd hok (by simp [applyCall, join])
      | vStr t => exact absurd hok (by simp [applyCall, join])
  | groupBy v =>
      cases v with
      | vObj o =>
          have h := okStateInj hok
          subst h
          intro _
          rfl
      | vStr f =>
          by_cases hf : f = ""
          · subst hf
            exact absurd hok (by simp [applyCall, groupBy, truthy])
          · rw [groupBy_string_ok s f hf] at hok
            have h := okStateInj hok
            subst h
            intro _
            rfl
      | vNull => exact absurd hok (by simp [applyCall, groupBy, truthy])
      | vBool b =>
          cases b with
          | false => exact absurd hok (by simp [applyCall, groupBy, truthy])
          | true => exact absurd hok (by simp [applyCall, groupBy, truthy])
      | vNum i =>
          by_cases hi : i = 0
          · subst hi
            exact absurd hok (by simp [applyCall, groupBy, truthy])
          · exact absurd hok (by simp [applyCall, groupBy, truthy, hi])
  | having v =>
      cases v with
      | vObj o =>
          have h := okStateInj hok
          subst h
          intro _
          rfl
      | vNull => exact absurd hok (by simp [applyCall, having])
      | vBool b => exact absurd hok (by simp [applyCall, having])
      | vNum i => exact absurd hok (by simp [applyCall, having])
      | vStr t => exact absurd hok (by simp [applyCall, having])

theorem applyCalls_isAgg (cs : List Call) :
    ∀ (s₀ s : State), applyCalls cs s₀ = .ok s →
      (∀ c ∈ cs, Call.good c = true) →
      (projectionRequiresAggregation s₀ = true → s₀.isAggregation = true) →
      s.isAggregation = (s₀.isAggregation || cs.any Call.isAggInducing) ∧
        (projectionRequiresAggregation s = true → s.isAggregation = true) := by
  induction cs with
  | nil =>
      intro s₀ s hok _ hinv
      have h := okStateInj hok
      subst h
      simpa using hinv
  | cons c cs ih =>
      intro s₀ s hok hg hinv
      cases h1 : applyCall s₀ c with
      | error e =>
          simp only [applyCalls, h1] at hok
          exact absurd hok (by simp)
      | ok s₁ =>
          simp only [applyCalls, h1] at hok
          have hgc : Call.good c = true := hg c (List.mem_cons_self _ _)
          have h1agg := applyCall_isAgg h1 hgc
          have h1inv := applyCall_projReq h1 hinv
          obtain ⟨ha, hb⟩ := ih s₁ s hok (fun x hx => hg x (List.mem_cons_of_mem _ hx)) h1inv
          refine ⟨?_, hb⟩
          rw [ha, h1agg]
          simp [List.any_cons, Bool.or_assoc]

end MongoQL

namespace MongoQL

/-- Modelled from the spec's words (§4.3 Mode Selector), for comparison with
the code's mode decision: `Aggregation` iff a JoinSpec, GroupSpec or
HavingSpec is present or some entry of the current selection is classified
`Alias` (string value) or `Computed` (any non-inclusion, non-numeric
value). -/
def specModeAggregation (s : State) : Bool :=
  s.joinSpec.isSome || s.groupSpec.isSome || s.havingFilter.isSome ||
    (match s.projection with
     | none => false
     | some p => p.any (fun kv =>
         match kv.2 with
         | .vNum _ => false
         | _ => true))

/-- The chain exhibiting that the code's mode is not a pure function of the
final IR: an aliasing `select` followed by `select([])`. -/
def c2Chain : List Call :=
  [.select [.obj [("author", .vStr "writer")]], .select []]

/-- Claim C2 counterexample: after `select([{author: "writer"}]).select([])`
the IR at exec time has no join, group or having spec and no selection entry
at all (the projection was cleared), yet `exec` still takes the aggregation
path, because `_isAggregation` is a sticky stored flag rather than a derived
predicate over the final IR. -/
theorem c2_counterexample :
    applyCalls c2Chain initState =
      .ok { initState with projection := none, isAggregation := true } ∧
    execIsAggregation { initState with projection := none, isAggregation := true } = true ∧
    specModeAggregation { initState with projection := none, isAggregation := true } = false :=
  ⟨rfl, rfl, rfl⟩

/-- Claim C2 (amended): for every chain that runs without validation errors
and whose select calls contain no empty-object entry, the mode at exec time
is `Aggregation` iff some call of the chain since the last reset was
aggregation-inducing — `join`, `groupBy`, `having`, `addFields`,
`selectAllWithAlias`, or a processed `select` containing an object entry.
The flag is monotonic over the chain's history rather than a function of the
final IR. -/
theorem c2_mode_iff_agg_inducing_call (cs : List Call) (s : State)
    (hok : applyCalls cs initState = .ok s)
    (hg : ∀ c ∈ cs, Call.good c = true) :
    execIsAggregation s = true ↔ ∃ c ∈ cs, Call.isAggInducing c = true := by
  obtain ⟨ha, hb⟩ := applyCalls_isAgg cs initState s hok hg
    (by simp [initState, projectionRequiresAggregation])
  constructor
  · intro h
    have hor : s.isAggregation = true ∨ projectionRequiresAggregation s = true := by
      simpa [execIsAggregation] using h
    have hagg : s.isAggregation = true := by
      rcases hor with h' | h'
      · exact h'
      · exact hb h'
    rw [ha] at hagg
    simp only [initState, Bool.false_or] at hagg
    exact List.any_eq_true.mp hagg
  · intro h
    have hany : cs.any Call.isAggInducing = true := List.any_eq_true.mpr h
    have hagg : s.isAggregation = true := by
      rw [ha]
      simp [initState, hany]
    simp [execIsAggregation, hagg]

/-- Witness for C2 (amended): instantiated at a single-`join` chain. -/
theorem c2_mode_iff_agg_inducing_call_witness :
    execIsAggregation
        { initState with joinSpec := some [("from", .vStr "authors")],
                         isAggregation := true } = true ↔
      ∃ c ∈ [Call.join (.vObj [("from", .vStr "authors")])],
        Call.isAggInducing c = true :=
  c2_mode_iff_agg_inducing_call
    [Call.join (.vObj [("from", .vStr "authors")])]
    { initState with joinSpec := some [("from", .vStr "authors")],
                     isAggregation := true }
    rfl
    (by intro c hc; rw [List.mem_singleton] at hc; subst hc; rfl)

end MongoQL

namespace MongoQL

/-! ### Claim C3: state after a successful terminal call -/

/-- The calls that assign `this._addFields`. -/
def Call.setsAddFields : Call → Bool
  | .addFields _ => true
  | .selectAllWithAlias _ => true
  | _ => false

theorem applyCall_af (s : State) (af : Option Obj) (c : Call) :
    applyCall { s with addFields := af } c =
      (applyCall s c).map (fun t =>
        { t with addFields := if c.setsAddFields then t.addFields else af }) := by
  cases c with
  | select fields =>
      simp only [applyCall, Call.setsAddFields, Except.map, if_neg, Bool.false_eq_true,
        not_false_eq_true]
      by_cases he : (fields.isEmpty || fields.any isStar) = true
      · simp [select, he]
      · simp only [select, he, if_neg, Bool.false_eq_true, not_false_eq_true]
        cases hacc : (fields.foldl selectStep ([], false, s.isAggregation)).2.1 <;>
          simp [hacc]
  | addFields v =>
      cases v <;> simp [applyCall, addFields, Except.map, Call.setsAddFields]
  | selectAllWithAlias m =>
      simp [applyCall, selectAllWithAlias, Except.map, Call.setsAddFields]
  | where' v =>
      cases v <;> simp [applyCall, where', Except.map, Call.setsAddFields]
  | orderBy f d =>
      simp only [applyCall, Except.map, Call.setsAddFields, if_neg, Bool.false_eq_true,
        not_false_eq_true]
      by_cases hf : f = "" <;> simp [orderBy, hf]
  | limit n => simp [applyCall, limit, Except.map, Call.setsAddFields]
  | offset n => simp [applyCall, offset, Except.map, Call.setsAddFields]
  | skip n => simp [applyCall, skip, offset, Except.map, Call.setsAddFields]
  | join v =>
      cases v <;> simp [applyCall, join, Except.map, Call.setsAddFields]
  | groupBy v =>
      cases v with
      | vObj o => simp [applyCall, groupBy, truthy, Except.map, Call.setsAddFields]
      | vStr f =>
          by_cases hf : f = ""
          · subst hf
            simp [applyCall, groupBy, truthy, Except.map]
          · simp [applyCall, groupBy, truthy, hf, Except.map, Call.setsAddFields]
      | vNull => simp [applyCall, groupBy, truthy, Except.map]
      | vBool b => cases b <;> simp [applyCall, groupBy, truthy, Except.map]
      | vNum i =>
          by_cases hi : i = 0 <;> simp [applyCall, groupBy, truthy, hi, Except.map]
  | having v =>
      cases v <;> simp [applyCall, having, Except.map, Call.setsAddFields]

theorem applyCalls_af (cs : List Call) :
    ∀ (s : State) (af : Option Obj) (t : State),
      applyCalls cs s = .ok t →
      ∃ af', applyCalls cs { s with addFields := af } = .ok { t with addFields := af' } := by
  induction cs with
  | nil =>
      intro s af t hok
      have h := okStateInj hok
      subst h
      exact ⟨af, rfl⟩
  | cons c cs ih =>
      intro s af t hok
      cases h1 : applyCall s c with
      | error e =>
          simp only [applyCalls, h1] at hok
          exact absurd hok (by simp)
      | ok s₁ =>
          simp only [applyCalls, h1] at hok
          have h2 : applyCall { s with addFields := af } c =
              .ok { s₁ with
                      addFields := if c.setsAddFields then s₁.addFields else af } := by
            rw [applyCall_af, h1]
            rfl
          obtain ⟨af', ha⟩ :=
            ih s₁ (if c.setsAddFields then s₁.addFields else af) t hok
          refine ⟨af', ?_⟩
          simp only [applyCalls, h2]
          exact ha

theorem execPlan_af (t : State) (x : Option Obj) :
    execPlan { t with addFields := x } = execPlan t := rfl

/-- Claim C3 counterexample: after `addFields({writer: "$author"})` and a
successful `exec`, the builder state is not that of a fresh instance —
`_addFields` still holds the map, because `_resetState` never assigns it. -/
theorem c3_counterexample :
    (exec { initState with addFields := some [("writer", .vStr "$author")],
                           isAggregation := true }
        (fun _ : Plan => (.ok [] : Except JsErr (List JsVal)))).2 ≠ initState := by
  have h : (exec { initState with addFields := some [("writer", .vStr "$author")],
                                  isAggregation := true }
      (fun _ : Plan => (.ok [] : Except JsErr (List JsVal)))).2 =
      { initState with addFields := some [("writer", .vStr "$author")] } := rfl
  rw [h]
  simp [initState]

/-- Claim C3 (amended): after a successful terminal `exec`, every IR field
that `exec` reads is reset to its freshly-constructed value; only the
`_addFields` field survives.  Since neither `exec` nor any fluent call reads
`_addFields`, a second chain on the same instance compiles to exactly the
plan it would compile to on a fresh instance — nothing leaks. -/
theorem c3_reset_and_no_leak {ε : Type} (s : State)
    (adapter : Plan → Except ε (List JsVal)) (docs : List JsVal)
    (hdone : adapter (execPlan s) = .ok docs) :
    (exec s adapter).2 = { initState with addFields := s.addFields } ∧
    ∀ (cs : List Call) (t : State),
      applyCalls cs (exec s adapter).2 = .ok t →
      ∃ t', applyCalls cs initState = .ok t' ∧ execPlan t' = execPlan t := by
  have hreset : (exec s adapter).2 = { initState with addFields := s.addFields } := by
    simp [exec, hdone, resetState, initState]
  refine ⟨hreset, ?_⟩
  intro cs t hok
  rw [hreset] at hok
  obtain ⟨af', ha⟩ := applyCalls_af cs { initState with addFields := s.addFields } none t hok
  refine ⟨{ t with addFields := af' }, ?_, execPlan_af t af'⟩
  have : ({ { initState with addFields := s.addFields } with addFields := none } : State)
      = initState := rfl
  rw [← this]
  exact ha

/-- Witness for C3 (amended): a chain that used `addFields` and a filter,
executed successfully, then followed by a `limit(3)` chain whose plan equals
the fresh-instance plan. -/
theorem c3_reset_and_no_leak_witness :
    ((exec { initState with addFields := some [("writer", .vStr "$author")],
                            query := [("genre", .vStr "Sci-Fi")],
                            isAggregation := true }
        (fun _ : Plan => (.ok [] : Except JsErr (List JsVal)))).2 =
      { initState with addFields := some [("writer", .vStr "$author")] }) ∧
    (∃ t', applyCalls [Call.limit (.vNum 3)] initState = .ok t' ∧
      execPlan t' = execPlan
        { initState with addFields := some [("writer", .vStr "$author")],
                         limitCount := some (.int 3) }) := by
  have h := c3_reset_and_no_leak
    { initState with addFields := some [("writer", .vStr "$author")],
                     query := [("genre", .vStr "Sci-Fi")],
                     isAggregation := true }
    (fun _ : Plan => (.ok [] : Except JsErr (List JsVal))) [] rfl
  exact ⟨h.1, h.2 [Call.limit (.vNum 3)]
    { initState with addFields := some [("writer", .vStr "$author")],
                     limitCount := some (.int 3) } rfl⟩

end MongoQL

namespace MongoQL

/-! ### Claim C1: fixed stage order, and independence from call order -/

theorem compilePipeline_fixed_order (s : State) :
    compilePipeline s =
      (if 0 < s.query.length then [Stage.smatch s.query] else []) ++
      (s.joinSpec.map Stage.lookup).toList ++
      (s.groupSpec.map Stage.group).toList ++
      (s.havingFilter.map Stage.smatch).toList ++
      (s.sort.map Stage.sortBy).toList ++
      (s.skipCount.map Stage.skipBy).toList ++
      (s.limitCount.map Stage.limitBy).toList ++
      (s.projection.map Stage.project).toList := by
  obtain ⟨q, proj, srt, skc, lim, js, gs, hf, agg, af⟩ := s
  cases js <;> cases gs <;> cases hf <;> cases srt <;> cases skc <;> cases lim <;>
    cases proj <;> by_cases hq : 0 < q.length <;> simp [compilePipeline, hq]

/-- The state transformer of a fluent call (identity on a thrown error). -/
def Call.run (c : Call) (s : State) : State :=
  match applyCall s c with
  | .ok s' => s'
  | .error _ => s

/-- The calls whose argument passes the call's own validation, so that the
call never throws (validation in the source depends only on the argument,
never on the accumulated state). -/
def Call.valid : Call → Bool
  | .addFields v => isObject v
  | .where' v => isObject v
  | .having v => isObject v
  | .join v => isObject v
  | .groupBy v =>
      truthy v && (match v with | .vStr _ => true | .vObj _ => true | _ => false)
  | _ => true

theorem run_of_ok {s t : State} {c : Call} (h : applyCall s c = .ok t) :
    c.run s = t := by
  simp [Call.run, h]

theorem applyCall_ok_of_valid {c : Call} (hv : c.valid = true) (s : State) :
    ∃ t, applyCall s c = .ok t := by
  cases c with
  | select fields => exact ⟨_, rfl⟩
  | selectAllWithAlias m => exact ⟨_, rfl⟩
  | orderBy f d => exact ⟨_, rfl⟩
  | limit n => exact ⟨_, rfl⟩
  | offset n => exact ⟨_, rfl⟩
  | skip n => exact ⟨_, rfl⟩
  | addFields v =>
      cases v <;> simp_all [Call.valid, isObject]
      exact ⟨_, rfl⟩
  | where' v =>
      cases v <;> simp_all [Call.valid, isObject]
      exact ⟨_, rfl⟩
  | having v =>
      cases v <;> simp_all [Call.valid, isObject]
      exact ⟨_, rfl⟩
  | join v =>
      cases v <;> simp_all [Call.valid, isObject]
      exact ⟨_, rfl⟩
  | groupBy v =>
      cases v with
      | vStr f =>
          have hf : f ≠ "" := by simpa [Call.valid, truthy] using hv
          exact ⟨_, groupBy_string_ok s f hf⟩
      | vObj o =>
          exact ⟨{ s with groupSpec := some o, isAggregation := true },
            by simp [applyCall, groupBy, truthy]⟩
      | vNull => simp [Call.valid, truthy] at hv
      | vBool b => simp [Call.valid] at hv
      | vNum i => simp [Call.valid] at hv

theorem applyCall_run {c : Call} (hv : c.valid = true) (s : State) :
    applyCall s c = .ok (c.run s) := by
  obtain ⟨t, ht⟩ := applyCall_ok_of_valid hv s
  rw [ht, run_of_ok ht]

theorem applyCalls_run (cs : List Call) :
    ∀ s : State, (∀ c ∈ cs, c.valid = true) →
      applyCalls cs s = .ok (cs.foldl (fun s c => c.run s) s) := by
  induction cs with
  | nil => intro s _; rfl
  | cons c cs ih =>
      intro s hv
      have h1 := applyCall_run (hv c (List.mem_cons_self _ _)) s
      simp only [applyCalls, h1, List.foldl_cons]
      exact ih (c.run s) (fun x hx => hv x (List.mem_cons_of_mem _ hx))

theorem run_where (f : Obj) (s : State) :
    (Call.where' (.vObj f)).run s = { s with query := objAssign s.query f } := rfl

theorem run_join (j : Obj) (s : State) :
    (Call.join (.vObj j)).run s =
      { s with joinSpec := some j, isAggregation := true } := rfl

theorem run_having (hf : Obj) (s : State) :
    (Call.having (.vObj hf)).run s =
      { s with havingFilter := some hf, isAggregation := true } := rfl

theorem run_limit (n : JsVal) (s : State) :
    (Call.limit n).run s = { s with limitCount := some (toNumber n) } := rfl

theorem run_offset (n : JsVal) (s : State) :
    (Call.offset n).run s = { s with skipCount := some (toNumber n) } := rfl

/-- `groupBy`'s stored spec: the string shorthand expansion, or the object
verbatim (junk on invalid input, which `Call.valid` excludes). -/
def groupExpand : JsVal → Obj
  | .vStr f => [("_id", .vStr ("$" ++ f)), ("items", .vObj [("$push", .vStr "$$ROOT")])]
  | .vObj o => o
  | _ => []

theorem run_groupBy (g : JsVal) (s : State)
    (hg : (Call.groupBy g).valid = true) :
    (Call.groupBy g).run s =
      { s with groupSpec := some (groupExpand g), isAggregation := true } := by
  cases g with
  | vStr f =>
      have hf : f ≠ "" := by simpa [Call.valid, truthy] using hg
      exact run_of_ok (groupBy_string_ok s f hf)
  | vObj o => rfl
  | vNull => simp [Call.valid, truthy] at hg
  | vBool b => simp [Call.valid] at hg
  | vNum i => simp [Call.valid] at hg

theorem run_orderBy (fld : String) (d : JsVal) (s : State) (hfld : fld ≠ "") :
    (Call.orderBy fld d).run s =
      { s with sort := some (setKey (s.sort.getD []) fld (.vNum (sortDir d))) } := by
  have : applyCall s (.orderBy fld d) = .ok (orderBy fld d s) := rfl
  rw [run_of_ok this, orderBy, if_neg hfld]

/-- The projection object a processed `select` stores, as a function of the
entries alone. -/
def selProj (fields : List SelectItem) : Obj :=
  (fields.foldl selectPA ([], false)).1

theorem run_select (fields : List SelectItem) (s : State)
    (hstar : fields.any isStar = false)
    (hobj : ∃ o, SelectItem.obj o ∈ fields ∧ o ≠ []) :
    (Call.select fields).run s =
      { s with projection := some (selProj fields), isAggregation := true } := by
  obtain ⟨o, ho, hone⟩ := hobj
  have hne : fields.isEmpty = false := by
    cases fields with
    | nil => exact absurd ho (List.not_mem_nil _)
    | cons a l => rfl
  have hrun : (Call.select fields).run s = select fields s := rfl
  rw [hrun]
  unfold select
  rw [hne, hstar]
  simp only [Bool.or_self, Bool.false_eq_true, if_false]
  have hfst : (fields.foldl selectStep ([], false, s.isAggregation)).1 = selProj fields := by
    have := congrArg Prod.fst (foldl_selectStep_pa fields [] false s.isAggregation)
    simpa [selProj] using this
  have htrig : fields.any itemTriggers = true := by
    refine List.any_eq_true.mpr ⟨.obj o, ho, ?_⟩
    simp [itemTriggers, hone]
  have hsnd : (fields.foldl selectStep ([], false, s.isAggregation)).2.1 = true := by
    have := congrArg Prod.snd (foldl_selectStep_pa fields [] false s.isAggregation)
    simp only at this
    rw [this, foldl_selectPA_snd]
    simp [htrig]
  rw [hsnd, hfst]
  rfl

end MongoQL

namespace MongoQL

/-- The spec's Scenario chain: `where`, `join`, `groupBy`, `having`,
`orderBy`, `limit`, `offset` and an aliasing `select`, in canonical order. -/
def c1Chain (f j hv : Obj) (g : JsVal) (fld : String) (dir n m : JsVal)
    (sel : List SelectItem) : List Call :=
  [.where' (.vObj f), .join (.vObj j), .groupBy g, .having (.vObj hv),
   .orderBy fld dir, .limit n, .offset m, .select sel]

/-- The IR after the scenario chain, in whatever order it was issued. -/
def c1Final (f j hv : Obj) (g : JsVal) (fld : String) (dir n m : JsVal)
    (sel : List SelectItem) : State :=
  { query := objAssign [] f,
    projection := some (selProj sel),
    sort := some (setKey [] fld (.vNum (sortDir dir))),
    skipCount := some (toNumber m),
    limitCount := some (toNumber n),
    joinSpec := some j,
    groupSpec := some (groupExpand g),
    havingFilter := some hv,
    isAggregation := true,
    addFields := none }

/-- Claim C1: the aggregation compiler emits a stage for exactly the IR
fields that are present, in the fixed order match, lookup, group,
match(having), sort, skip, limit, project (first conjunct, for every IR);
and for the scenario chain issued in any order, the chain reaches exec with
the same IR and compiles to exactly that fixed eight-stage pipeline (second
conjunct). -/
theorem c1_fixed_stage_order
    (f j hv : Obj) (g : JsVal) (fld : String) (dir n m : JsVal)
    (sel : List SelectItem)
    (hf : f ≠ []) (hg : (Call.groupBy g).valid = true) (hfld : fld ≠ "")
    (hstar : sel.any isStar = false)
    (hobj : ∃ o, SelectItem.obj o ∈ sel ∧ o ≠ []) :
    (∀ s : State, compilePipeline s =
      (if 0 < s.query.length then [Stage.smatch s.query] else []) ++
      (s.joinSpec.map Stage.lookup).toList ++
      (s.groupSpec.map Stage.group).toList ++
      (s.havingFilter.map Stage.smatch).toList ++
      (s.sort.map Stage.sortBy).toList ++
      (s.skipCount.map Stage.skipBy).toList ++
      (s.limitCount.map Stage.limitBy).toList ++
      (s.projection.map Stage.project).toList) ∧
    (∀ l : List Call, l.Perm (c1Chain f j hv g fld dir n m sel) →
      applyCalls l initState = .ok (c1Final f j hv g fld dir n m sel) ∧
      execPlan (c1Final f j hv g fld dir n m sel) =
        .aggregate
          [Stage.smatch (objAssign [] f),
           Stage.lookup j,
           Stage.group (groupExpand g),
           Stage.smatch hv,
           Stage.sortBy (setKey [] fld (.vNum (sortDir dir))),
           Stage.skipBy (toNumber m),
           Stage.limitBy (toNumber n),
           Stage.project (selProj sel)]) := by
  have Hw : ∀ z : State, (Call.where' (.vObj f)).run z =
      { z with query := objAssign z.query f } := run_where f
  have Hj : ∀ z : State, (Call.join (.vObj j)).run z =
      { z with joinSpec := some j, isAggregation := true } := run_join j
  have Hg : ∀ z : State, (Call.groupBy g).run z =
      { z with groupSpec := some (groupExpand g), isAggregation := true } :=
    fun z => run_groupBy g z hg
  have Hh : ∀ z : State, (Call.having (.vObj hv)).run z =
      { z with havingFilter := some hv, isAggregation := true } := run_having hv
  have Hob : ∀ z : State, (Call.orderBy fld dir).run z =
      { z with sort := some (setKey (z.sort.getD []) fld (.vNum (sortDir dir))) } :=
    fun z => run_orderBy fld dir z hfld
  have Hl : ∀ z : State, (Call.limit n).run z =
      { z with limitCount := some (toNumber n) } := run_limit n
  have Ho : ∀ z : State, (Call.offset m).run z =
      { z with skipCount := some (toNumber m) } := run_offset m
  have Hs : ∀ z : State, (Call.select sel).run z =
      { z with projection := some (selProj sel), isAggregation := true } :=
    fun z => run_select sel z hstar hobj
  refine ⟨compilePipeline_fixed_order, ?_⟩
  intro l hperm
  have hvalid : ∀ c ∈ c1Chain f j hv g fld dir n m sel, c.valid = true := by
    intro c hc
    simp only [c1Chain, List.mem_cons, List.not_mem_nil, or_false] at hc
    rcases hc with rfl | rfl | rfl | rfl | rfl | rfl | rfl | rfl
    · rfl
    · rfl
    · exact hg
    · rfl
    · rfl
    · rfl
    · rfl
    · rfl
  have hvl : ∀ c ∈ l, c.valid = true :=
    fun c hc => hvalid c (hperm.mem_iff.mp hc)
  have hcomm : ∀ x ∈ l, ∀ y ∈ l, ∀ z : State,
      (fun s (c : Call) => c.run s) ((fun s (c : Call) => c.run s) z x) y =
      (fun s (c : Call) => c.run s) ((fun s (c : Call) => c.run s) z y) x := by
    intro x hx y hy z
    have hx' := hperm.mem_iff.mp hx
    have hy' := hperm.mem_iff.mp hy
    simp only [c1Chain, List.mem_cons, List.not_mem_nil, or_false] at hx' hy'
    rcases hx' with rfl | rfl | rfl | rfl | rfl | rfl | rfl | rfl <;>
      rcases hy' with rfl | rfl | rfl | rfl | rfl | rfl | rfl | rfl <;>
      simp only [Hw, Hj, Hg, Hh, Hob, Hl, Ho, Hs]
  have hfoldperm :
      l.foldl (fun s (c : Call) => c.run s) initState =
        (c1Chain f j hv g fld dir n m sel).foldl (fun s (c : Call) => c.run s) initState :=
    hperm.foldl_eq' hcomm initState
  have hfold :
      (c1Chain f j hv g fld dir n m sel).foldl (fun s (c : Call) => c.run s) initState =
        c1Final f j hv g fld dir n m sel := by
    simp only [c1Chain, List.foldl_cons, List.foldl_nil, Hw, Hj, Hg, Hh, Hob, Hl, Ho, Hs]
    rfl
  constructor
  · rw [applyCalls_run l initState hvl, hfoldperm, hfold]
  · have hq : 0 < (objAssign [] f).length := objAssign_length_pos [] f hf
    simp [execPlan, execIsAggregation, c1Final, compilePipeline, hq]

/-- The concrete scenario filter used in the C1 witness. -/
def c1wF : Obj := [("genre", .vStr "Sci-Fi")]

/-- The concrete scenario join spec used in the C1 witness. -/
def c1wJ : Obj :=
  [("from", .vStr "authors"), ("localField", .vStr "author"),
   ("foreignField", .vStr "_id"), ("as", .vStr "authorDoc")]

/-- The concrete scenario having filter used in the C1 witness. -/
def c1wH : Obj := [("count", .vObj [("$gt", .vNum 5)])]

/-- The concrete aliasing selection used in the C1 witness. -/
def c1wSel : List SelectItem := [.str "title", .obj [("author", .vStr "writer")]]

/-- Witness for C1: the scenario chain issued with `join` before `where`
still compiles to the fixed-order eight-stage pipeline. -/
theorem c1_fixed_stage_order_witness :
    applyCalls
        [.join (.vObj c1wJ), .where' (.vObj c1wF), .groupBy (.vStr "genre"),
         .having (.vObj c1wH), .orderBy "title" (.vStr "desc"), .limit (.vNum 5),
         .offset (.vNum 2), .select c1wSel]
        initState =
      .ok (c1Final c1wF c1wJ c1wH (.vStr "genre") "title" (.vStr "desc")
            (.vNum 5) (.vNum 2) c1wSel) ∧
    execPlan (c1Final c1wF c1wJ c1wH (.vStr "genre") "title" (.vStr "desc")
            (.vNum 5) (.vNum 2) c1wSel) =
      .aggregate
        [Stage.smatch (objAssign [] c1wF),
         Stage.lookup c1wJ,
         Stage.group (groupExpand (.vStr "genre")),
         Stage.smatch c1wH,
         Stage.sortBy (setKey [] "title" (.vNum (sortDir (.vStr "desc")))),
         Stage.skipBy (toNumber (.vNum 2)),
         Stage.limitBy (toNumber (.vNum 5)),
         Stage.project (selProj c1wSel)] :=
  (c1_fixed_stage_order c1wF c1wJ c1wH (.vStr "genre") "title" (.vStr "desc")
      (.vNum 5) (.vNum 2) c1wSel
      (by simp [c1wF]) rfl (by decide) rfl
      ⟨[("author", .vStr "writer")], by simp [c1wSel], by simp⟩).2
    _ (List.Perm.swap _ _ _)

end MongoQL

namespace MongoQL

/-! ### Claim C8: alias selection entries -/

/-- The projection key one `select` object entry writes: the alias name for a
string value, the entry's own key otherwise. -/
def entryTarget (kv : String × JsVal) : String :=
  match kv.2 with
  | .vStr a => a
  | _ => kv.1

/-- The projection keys one select item writes. -/
def itemTargets : SelectItem → List String
  | .str s => [s.trim]
  | .obj o => o.map entryTarget
  | .other _ => []

theorem lookup_selectEntry_fold (t : String) (o : Obj) :
    ∀ pa : Obj × Bool, (∀ kv ∈ o, entryTarget kv ≠ t) →
      lookupKey (o.foldl selectEntry pa).1 t = lookupKey pa.1 t := by
  induction o with
  | nil => intro pa _; rfl
  | cons kv rest ih =>
      intro pa hno
      have hkv : entryTarget kv ≠ t := hno kv (List.mem_cons_self _ _)
      have hrest : ∀ x ∈ rest, entryTarget x ≠ t :=
        fun x hx => hno x (List.mem_cons_of_mem _ hx)
      rw [List.foldl_cons, ih _ hrest]
      obtain ⟨k, v⟩ := kv
      cases v with
      | vStr a =>
          have ha : a ≠ t := by simpa [entryTarget] using hkv
          simp [selectEntry, lookupKey_setKey, ha]
      | vNull =>
          have hk : k ≠ t := by simpa [entryTarget] using hkv
          simp [selectEntry, lookupKey_setKey, hk]
      | vBool b =>
          have hk : k ≠ t := by simpa [entryTarget] using hkv
          simp [selectEntry, lookupKey_setKey, hk]
      | vNum i =>
          have hk : k ≠ t := by simpa [entryTarget] using hkv
          simp [selectEntry, lookupKey_setKey, hk]
      | vObj fo =>
          have hk : k ≠ t := by simpa [entryTarget] using hkv
          simp [selectEntry, lookupKey_setKey, hk]

theorem lookup_selectPA_fold (t : String) (items : List SelectItem) :
    ∀ pa : Obj × Bool, (∀ it ∈ items, t ∉ itemTargets it) →
      lookupKey (items.foldl selectPA pa).1 t = lookupKey pa.1 t := by
  induction items with
  | nil => intro pa _; rfl
  | cons it rest ih =>
      intro pa hno
      have hit : t ∉ itemTargets it := hno it (List.mem_cons_self _ _)
      have hrest : ∀ x ∈ rest, t ∉ itemTargets x :=
        fun x hx => hno x (List.mem_cons_of_mem _ hx)
      rw [List.foldl_cons, ih _ hrest]
      cases it with
      | str s =>
          have hs : s.trim ≠ t := by
            intro h
            exact hit (by simp [itemTargets, h])
          simp [selectPA, lookupKey_setKey, hs]
      | obj o =>
          refine lookup_selectEntry_fold t o pa ?_
          intro kv hkv h
          exact hit (by
            simp only [itemTargets, List.mem_map]
            exact ⟨kv, hkv, h⟩)
      | other v => rfl

theorem lookup_selectEntry_alias_fold (src tgt : String) (o₁ o₂ : Obj)
    (pa : Obj × Bool) (h2 : ∀ kv ∈ o₂, entryTarget kv ≠ tgt) :
    lookupKey ((o₁ ++ (src, .vStr tgt) :: o₂).foldl selectEntry pa).1 tgt =
      some (.vStr ("$" ++ src)) := by
  rw [List.foldl_append, List.foldl_cons]
  rw [lookup_selectEntry_fold tgt o₂ _ h2]
  simp [selectEntry, lookupKey_setKey]

theorem project_mem_compilePipeline {s : State} {p : Obj}
    (h : s.projection = some p) : Stage.project p ∈ compilePipeline s := by
  rw [compilePipeline_fixed_order, h]
  simp

/-- Claim C8 counterexample: in the selection list
`[{a: "x"}, {x: 5}]` the alias entry `{a: "x"}` is present, but the later
entry writes the same target key `x`, so the compiled projection maps `x` to
`5`, not to `"$a"`. -/
theorem c8_counterexample :
    (select [.obj [("a", .vStr "x")], .obj [("x", .vNum 5)]] initState).projection =
      some [("x", .vNum 5)] ∧
    lookupKey [("x", .vNum 5)] "x" ≠ some (.vStr ("$" ++ "a")) := by
  refine ⟨rfl, ?_⟩
  simp [lookupKey]

/-- Claim C8 (amended): a selection list containing an alias entry
`{src: tgt}` whose target `tgt` is not overwritten by any later entry of the
same list forces aggregation mode, and the compiled projection — emitted as
the pipeline's project stage — maps `tgt` to `"$src"`. -/
theorem c8_alias_forces_aggregation
    (pre post : List SelectItem) (o₁ o₂ : Obj) (src tgt : String) (s : State)
    (hstar : (pre ++ SelectItem.obj (o₁ ++ (src, .vStr tgt) :: o₂) :: post).any isStar
      = false)
    (h2 : ∀ kv ∈ o₂, entryTarget kv ≠ tgt)
    (h3 : ∀ it ∈ post, tgt ∉ itemTargets it) :
    execIsAggregation
        (select (pre ++ SelectItem.obj (o₁ ++ (src, .vStr tgt) :: o₂) :: post) s)
      = true ∧
    ∃ p,
      (select (pre ++ SelectItem.obj (o₁ ++ (src, .vStr tgt) :: o₂) :: post) s).projection
        = some p ∧
      lookupKey p tgt = some (.vStr ("$" ++ src)) ∧
      Stage.project p ∈ compilePipeline
        (select (pre ++ SelectItem.obj (o₁ ++ (src, .vStr tgt) :: o₂) :: post) s) := by
  set fields := pre ++ SelectItem.obj (o₁ ++ (src, .vStr tgt) :: o₂) :: post with hfields
  have hobj : ∃ o, SelectItem.obj o ∈ fields ∧ o ≠ [] :=
    ⟨o₁ ++ (src, .vStr tgt) :: o₂, by simp [hfields], by simp⟩
  have hsel : select fields s =
      { s with projection := some (selProj fields), isAggregation := true } := by
    have := run_select fields s hstar hobj
    simpa [Call.run, applyCall] using this
  rw [hsel]
  refine ⟨by simp [execIsAggregation], selProj fields, rfl, ?_, ?_⟩
  · rw [selProj, hfields, List.foldl_append, List.foldl_cons]
    rw [show List.foldl selectPA
          (selectPA (List.foldl selectPA ([], false) pre) (.obj (o₁ ++ (src, .vStr tgt) :: o₂)))
          post = List.foldl selectPA
          ((o₁ ++ (src, .vStr tgt) :: o₂).foldl selectEntry (List.foldl selectPA ([], false) pre))
          post from rfl]
    rw [lookup_selectPA_fold tgt post _ h3]
    exact lookup_selectEntry_alias_fold src tgt o₁ o₂ _ h2
  · exact project_mem_compilePipeline rfl

/-- Witness for C8 (amended): `select(["title", {author: "writer"}])` on a
fresh builder. -/
theorem c8_alias_forces_aggregation_witness :
    execIsAggregation
        (select ([.str "title"] ++ SelectItem.obj ([] ++ ("author", .vStr "writer") :: []) :: []) initState)
      = true ∧
    ∃ p,
      (select ([.str "title"] ++ SelectItem.obj ([] ++ ("author", .vStr "writer") :: []) :: []) initState).projection
        = some p ∧
      lookupKey p "writer" = some (.vStr ("$" ++ "author")) ∧
      Stage.project p ∈ compilePipeline
        (select ([.str "title"] ++ SelectItem.obj ([] ++ ("author", .vStr "writer") :: []) :: []) initState) :=
  c8_alias_forces_aggregation [.str "title"] [] [] [] "author" "writer" initState
    rfl
    (fun _kv hkv => absurd hkv (List.not_mem_nil _))
    (fun _it hit => absurd hit (List.not_mem_nil _))

end MongoQL

namespace MongoQL

/-! ### Claim C7: a heap-indexed model of object references

JavaScript objects are reference values: `exec` pushes `this.query`,
`this.joinSpec`, … into stage objects without copying.  The following model
makes that explicit: a `Heap` stores objects, the builder state stores
addresses, and each operation mirrors the source's reads, writes and
allocations (`_addFields` is omitted here — it is dead state that no stage
ever references). -/

/-- A heap of JS objects: an address is an index, allocation appends. -/
structure Heap where
  objs : List Obj

/-- Dereference (out-of-range reads never occur in modelled traces). -/
def Heap.get (h : Heap) (a : Nat) : Obj := h.objs.getD a []

/-- Overwrite the object at an address (a JS in-place mutation). -/
def Heap.set (h : Heap) (a : Nat) (o : Obj) : Heap := ⟨h.objs.set a o⟩

/-- Allocate a fresh object, returning its address. -/
def Heap.alloc (h : Heap) (o : Obj) : Heap × Nat := (⟨h.objs ++ [o]⟩, h.objs.length)

/-- The builder's query state with object-valued fields as heap addresses. -/
structure RState where
  query : Nat
  projection : Option Nat
  sort : Option Nat
  skipCount : Option JsNum
  limitCount : Option JsNum
  joinSpec : Option Nat
  groupSpec : Option Nat
  havingFilter : Option Nat
  isAggregation : Bool

/-- Construction / `_resetState`: allocates a fresh empty query object. -/
def freshR (h : Heap) : Heap × RState :=
  let al := h.alloc []
  (al.1, { query := al.2, projection := none, sort := none, skipCount := none,
           limitCount := none, joinSpec := none, groupSpec := none,
           havingFilter := none, isAggregation := false })

/-- `where(filter)`: `Object.assign(this.query, filter)` — copies the
caller's entries into the builder-owned query object in place. -/
def whereR (h : Heap) (s : RState) (filter : Nat) : Heap × RState :=
  (h.set s.query (objAssign (h.get s.query) (h.get filter)), s)

/-- `join(spec)`: stores the caller's object address verbatim — no copy. -/
def joinR (h : Heap) (s : RState) (spec : Nat) : Heap × RState :=
  (h, { s with joinSpec := some spec, isAggregation := true })

/-- `groupBy(spec)` object form: stores the caller's address verbatim. -/
def groupByObjR (h : Heap) (s : RState) (spec : Nat) : Heap × RState :=
  (h, { s with groupSpec := some spec, isAggregation := true })

/-- `groupBy(field)` string form: allocates the expansion object. -/
def groupByStrR (h : Heap) (s : RState) (f : String) : Heap × RState :=
  let al := h.alloc [("_id", .vStr ("$" ++ f)), ("items", .vObj [("$push", .vStr "$$ROOT")])]
  (al.1, { s with groupSpec := some al.2, isAggregation := true })

/-- `having(filter)`: stores the caller's address verbatim. -/
def havingR (h : Heap) (s : RState) (filter : Nat) : Heap × RState :=
  (h, { s with havingFilter := some filter, isAggregation := true })

/-- `orderBy(field, dir)`: lazily allocates the builder-owned sort object,
then mutates it in place. -/
def orderByR (h : Heap) (s : RState) (field : String) (direction : JsVal) :
    Heap × RState :=
  if field = "" then (h, s)
  else
    match s.sort with
    | some a => (h.set a (setKey (h.get a) field (.vNum (sortDir direction))), s)
    | none =>
        let al := h.alloc []
        (al.1.set al.2 (setKey (al.1.get al.2) field (.vNum (sortDir direction))),
         { s with sort := some al.2 })

/-- `select(fields)`: reads the caller's entries, allocates the fresh
projection object it builds. -/
def selectR (h : Heap) (s : RState) (fields : List SelectItem) : Heap × RState :=
  if fields.isEmpty || fields.any isStar then (h, { s with projection := none })
  else
    let acc := fields.foldl selectStep ([], false, s.isAggregation)
    let al := h.alloc acc.1
    let s' := { s with projection := some al.2, isAggregation := acc.2.2 }
    (al.1, if acc.2.1 then { s' with isAggregation := true } else s')

/-- One compiled stage holding the address of the object it embeds. -/
inductive RStage where
  | smatch (a : Nat)
  | lookup (a : Nat)
  | group (a : Nat)
  | sortBy (a : Nat)
  | skipBy (n : JsNum)
  | limitBy (n : JsNum)
  | project (a : Nat)

/-- The pipeline `exec` builds, with stages referencing the IR's objects. -/
def compileR (h : Heap) (s : RState) : List RStage :=
  let pipeline : List RStage := []
  let pipeline :=
    if 0 < (h.get s.query).length then pipeline ++ [RStage.smatch s.query] else pipeline
  let pipeline := match s.joinSpec with
    | some j => pipeline ++ [RStage.lookup j]
    | none => pipeline
  let pipeline := match s.groupSpec with
    | some g => pipeline ++ [RStage.group g]
    | none => pipeline
  let pipeline := match s.havingFilter with
    | some hf => pipeline ++ [RStage.smatch hf]
    | none => pipeline
  let pipeline := match s.sort with
    | some o => pipeline ++ [RStage.sortBy o]
    | none => pipeline
  let pipeline := match s.skipCount with
    | some n => pipeline ++ [RStage.skipBy n]
    | none => pipeline
  let pipeline := match s.limitCount with
    | some n => pipeline ++ [RStage.limitBy n]
    | none => pipeline
  match s.projection with
  | some p => pipeline ++ [RStage.project p]
  | none => pipeline

/-- `exec` in aggregation mode: compiles the pipeline (stages referencing
the live objects), then `_resetState` rebinds `this.query` to a freshly
allocated object and clears the other references. -/
def execR (h : Heap) (s : RState) : Heap × RState × List RStage :=
  let ps := compileR h s
  let al := h.alloc []
  (al.1, { query := al.2, projection := none, sort := none, skipCount := none,
           limitCount := none, joinSpec := none, groupSpec := none,
           havingFilter := none, isAggregation := false }, ps)

/-- The value content of a compiled stage under a heap. -/
def stageView (h : Heap) : RStage → Stage
  | .smatch a => .smatch (h.get a)
  | .lookup a => .lookup (h.get a)
  | .group a => .group (h.get a)
  | .sortBy a => .sortBy (h.get a)
  | .skipBy n => .skipBy n
  | .limitBy n => .limitBy n
  | .project a => .project (h.get a)

/-- The value content of a compiled stage list under a heap. -/
def planView (h : Heap) (ps : List RStage) : List Stage := ps.map (stageView h)

end MongoQL

namespace MongoQL

theorem getD_set_self : ∀ (l : List Obj) (n : Nat) (o : Obj), n < l.length →
    (l.set n o).getD n [] = o
  | [], n, o, h => absurd h (by simp)
  | _ :: _, 0, _, _ => rfl
  | _ :: xs, n + 1, o, h => getD_set_self xs n o (by simpa using h)

theorem getD_set_ne : ∀ (l : List Obj) (m n : Nat) (o : Obj), m ≠ n →
    (l.set m o).getD n [] = l.getD n []
  | [], _, _, _, _ => rfl
  | _ :: _, 0, 0, _, h => absurd rfl h
  | _ :: _, 0, _ + 1, _, _ => rfl
  | _ :: _, _ + 1, 0, _, _ => rfl
  | _ :: xs, m + 1, n + 1, o, h =>
      getD_set_ne xs m n o (fun hh => h (by rw [hh]))

theorem Heap.get_set_self (h : Heap) (a : Nat) (o : Obj) (ha : a < h.objs.length) :
    (h.set a o).get a = o :=
  getD_set_self h.objs a o ha

theorem Heap.get_set_ne (h : Heap) (b a : Nat) (o : Obj) (hne : b ≠ a) :
    (h.set b o).get a = h.get a :=
  getD_set_ne h.objs b a o hne

/-- The address a compiled stage references, if any. -/
def RStage.addr : RStage → Option Nat
  | .smatch a => some a
  | .lookup a => some a
  | .group a => some a
  | .sortBy a => some a
  | .project a => some a
  | .skipBy _ => none
  | .limitBy _ => none

theorem stageView_set_of_ne_addr (h : Heap) (b : Nat) (o : Obj) (st : RStage)
    (hb : st.addr ≠ some b) : stageView (h.set b o) st = stageView h st := by
  cases st with
  | smatch a =>
      have : b ≠ a := fun hh => hb (by simp [RStage.addr, hh])
      simp [stageView, Heap.get_set_ne h b a o this]
  | lookup a =>
      have : b ≠ a := fun hh => hb (by simp [RStage.addr, hh])
      simp [stageView, Heap.get_set_ne h b a o this]
  | group a =>
      have : b ≠ a := fun hh => hb (by simp [RStage.addr, hh])
      simp [stageView, Heap.get_set_ne h b a o this]
  | sortBy a =>
      have : b ≠ a := fun hh => hb (by simp [RStage.addr, hh])
      simp [stageView, Heap.get_set_ne h b a o this]
  | project a =>
      have : b ≠ a := fun hh => hb (by simp [RStage.addr, hh])
      simp [stageView, Heap.get_set_ne h b a o this]
  | skipBy n => rfl
  | limitBy n => rfl

theorem planView_set_of_ne_addr (h : Heap) (b : Nat) (o : Obj) (ps : List RStage)
    (hb : ∀ st ∈ ps, st.addr ≠ some b) :
    planView (h.set b o) ps = planView h ps :=
  List.map_congr_left (fun st hst => stageView_set_of_ne_addr h b o st (hb st hst))

theorem compileR_fixed_order (h : Heap) (s : RState) :
    compileR h s =
      (if 0 < (h.get s.query).length then [RStage.smatch s.query] else []) ++
      (s.joinSpec.map RStage.lookup).toList ++
      (s.groupSpec.map RStage.group).toList ++
      (s.havingFilter.map RStage.smatch).toList ++
      (s.sort.map RStage.sortBy).toList ++
      (s.skipCount.map RStage.skipBy).toList ++
      (s.limitCount.map RStage.limitBy).toList ++
      (s.projection.map RStage.project).toList := by
  obtain ⟨q, proj, srt, skc, lim, js, gs, hf, agg⟩ := s
  cases js <;> cases gs <;> cases hf <;> cases srt <;> cases skc <;> cases lim <;>
    cases proj <;> by_cases hq : 0 < (h.get q).length <;> simp [compileR, hq]

/-- Every address referenced by a compiled stage is an address stored in the
IR at compile time. -/
theorem compileR_addr_cases (h : Heap) (s : RState) (st : RStage)
    (hst : st ∈ compileR h s) (b : Nat) (hb : st.addr = some b) :
    b = s.query ∨ s.joinSpec = some b ∨ s.groupSpec = some b ∨
      s.havingFilter = some b ∨ s.sort = some b ∨ s.projection = some b := by
  rw [compileR_fixed_order] at hst
  simp only [List.mem_append] at hst
  rcases hst with ((((((h1 | h1) | h1) | h1) | h1) | h1) | h1) | h1
  · by_cases hq : 0 < (h.get s.query).length
    · rw [if_pos hq] at h1
      rw [List.mem_singleton] at h1
      subst h1
      simp only [RStage.addr, Option.some.injEq] at hb
      exact Or.inl hb.symm
    · rw [if_neg hq] at h1
      exact absurd h1 (List.not_mem_nil _)
  · cases hjs : s.joinSpec with
    | none => rw [hjs] at h1; exact absurd h1 (List.not_mem_nil _)
    | some j =>
        rw [hjs] at h1
        simp only [Option.map_some', Option.toList_some, List.mem_singleton] at h1
        subst h1
        simp only [RStage.addr, Option.some.injEq] at hb
        exact Or.inr (Or.inl (by rw [hb]))
  · cases hgs : s.groupSpec with
    | none => rw [hgs] at h1; exact absurd h1 (List.not_mem_nil _)
    | some g =>
        rw [hgs] at h1
        simp only [Option.map_some', Option.toList_some, List.mem_singleton] at h1
        subst h1
        simp only [RStage.addr, Option.some.injEq] at hb
        exact Or.inr (Or.inr (Or.inl (by rw [hb])))
  · cases hhf : s.havingFilter with
    | none => rw [hhf] at h1; exact absurd h1 (List.not_mem_nil _)
    | some x =>
        rw [hhf] at h1
        simp only [Option.map_some', Option.toList_some, List.mem_singleton] at h1
        subst h1
        simp only [RStage.addr, Option.some.injEq] at hb
        exact Or.inr (Or.inr (Or.inr (Or.inl (by rw [hb]))))
  · cases hsrt : s.sort with
    | none => rw [hsrt] at h1; exact absurd h1 (List.not_mem_nil _)
    | some x =>
        rw [hsrt] at h1
        simp only [Option.map_some', Option.toList_some, List.mem_singleton] at h1
        subst h1
        simp only [RStage.addr, Option.some.injEq] at hb
        exact Or.inr (Or.inr (Or.inr (Or.inr (Or.inl (by rw [hb])))))
  · cases hskc : s.skipCount with
    | none => rw [hskc] at h1; exact absurd h1 (List.not_mem_nil _)
    | some x =>
        rw [hskc] at h1
        simp only [Option.map_some', Option.toList_some, List.mem_singleton] at h1
        subst h1
        simp [RStage.addr] at hb
  · cases hlim : s.limitCount with
    | none => rw [hlim] at h1; exact absurd h1 (List.not_mem_nil _)
    | some x =>
        rw [hlim] at h1
        simp only [Option.map_some', Option.toList_some, List.mem_singleton] at h1
        subst h1
        simp [RStage.addr] at hb
  · cases hproj : s.projection with
    | none => rw [hproj] at h1; exact absurd h1 (List.not_mem_nil _)
    | some x =>
        rw [hproj] at h1
        simp only [Option.map_some', Option.toList_some, List.mem_singleton] at h1
        subst h1
        simp only [RStage.addr, Option.some.injEq] at hb
        exact Or.inr (Or.inr (Or.inr (Or.inr (Or.inr (by rw [hb])))))

/-- All addresses the IR stores are below the heap's allocation frontier. -/
def stateAddrsBelow (h : Heap) (s : RState) : Prop :=
  s.query < h.objs.length ∧
  (∀ a ∈ s.projection, a < h.objs.length) ∧
  (∀ a ∈ s.sort, a < h.objs.length) ∧
  (∀ a ∈ s.joinSpec, a < h.objs.length) ∧
  (∀ a ∈ s.groupSpec, a < h.objs.length) ∧
  (∀ a ∈ s.havingFilter, a < h.objs.length)

theorem compileR_addr_below (h : Heap) (s : RState) (hwf : stateAddrsBelow h s)
    (st : RStage) (hst : st ∈ compileR h s) (b : Nat) (hb : st.addr = some b) :
    b < h.objs.length := by
  obtain ⟨h1, h2, h3, h4, h5, h6⟩ := hwf
  rcases compileR_addr_cases h s st hst b hb with hc | hc | hc | hc | hc | hc
  · exact hc ▸ h1
  · exact h4 b hc
  · exact h5 b hc
  · exact h6 b hc
  · exact h3 b hc
  · exact h2 b hc

end MongoQL

namespace MongoQL

/-- The caller-supplied join spec of the C7 counterexample. -/
def c7jObj : Obj :=
  [("from", .vStr "authors"), ("localField", .vStr "author"),
   ("foreignField", .vStr "_id"), ("as", .vStr "authorDoc")]

/-- Claim C7 counterexample: the builder is constructed on an empty heap, the
caller allocates a join spec, `join` stores its address verbatim, `exec`
compiles `[$lookup]` — and mutating the caller's spec object afterwards
changes the content of the already-compiled stage list, because the stage
references the live object rather than a copy. -/
theorem c7_counterexample :
    freshR ⟨[]⟩ = (⟨[[]]⟩, ⟨0, none, none, none, none, none, none, none, false⟩) ∧
    Heap.alloc ⟨[[]]⟩ c7jObj = (⟨[[], c7jObj]⟩, 1) ∧
    joinR ⟨[[], c7jObj]⟩ ⟨0, none, none, none, none, none, none, none, false⟩ 1 =
      (⟨[[], c7jObj]⟩, ⟨0, none, none, none, none, some 1, none, none, true⟩) ∧
    execR ⟨[[], c7jObj]⟩ ⟨0, none, none, none, none, some 1, none, none, true⟩ =
      (⟨[[], c7jObj, []]⟩,
       ⟨2, none, none, none, none, none, none, none, false⟩,
       [RStage.lookup 1]) ∧
    planView ⟨[[], c7jObj, []]⟩ [RStage.lookup 1] = [Stage.lookup c7jObj] ∧
    planView (Heap.set ⟨[[], c7jObj, []]⟩ 1 [("from", .vStr "tampered")])
        [RStage.lookup 1] = [Stage.lookup [("from", .vStr "tampered")]] ∧
    planView (Heap.set ⟨[[], c7jObj, []]⟩ 1 [("from", .vStr "tampered")])
        [RStage.lookup 1] ≠
      planView ⟨[[], c7jObj, []]⟩ [RStage.lookup 1] := by
  refine ⟨rfl, rfl, rfl, rfl, rfl, rfl, ?_⟩
  have h1 : planView (Heap.set ⟨[[], c7jObj, []]⟩ 1 [("from", .vStr "tampered")])
      [RStage.lookup 1] = [Stage.lookup [("from", .vStr "tampered")]] := rfl
  have h2 : planView ⟨[[], c7jObj, []]⟩ [RStage.lookup 1] = [Stage.lookup c7jObj] := rfl
  rw [h1, h2]
  simp [c7jObj]

/-- Claim C7 (amended): the compiled stages reference the IR's live objects
rather than copies.  Mutating through the builder after dispatch is still
harmless — reset rebinds `this.query` to a fresh allocation, so a subsequent
`where` cannot touch any compiled stage — but the `$lookup` stage embeds the
caller's originally supplied join spec object, and an in-place mutation of
that object does change the content of the already-compiled stage list. -/
theorem c7_stages_reference_live_objects (h : Heap) (s : RState)
    (hwf : stateAddrsBelow h s) :
    (∀ a, s.joinSpec = some a →
      RStage.lookup a ∈ (execR h s).2.2 ∧
      ∀ o', stageView ((execR h s).1.set a o') (RStage.lookup a) = Stage.lookup o') ∧
    (∀ fa, planView (whereR (execR h s).1 (execR h s).2.1 fa).1 (execR h s).2.2 =
      planView (execR h s).1 (execR h s).2.2) := by
  constructor
  · intro a hja
    constructor
    · show RStage.lookup a ∈ compileR h s
      rw [compileR_fixed_order, hja]
      simp
    · intro o'
      have ha : a < ((execR h s).1).objs.length := by
        have := hwf.2.2.2.1 a hja
        simp only [execR, Heap.alloc, List.length_append]
        omega
      simp [stageView, Heap.get_set_self _ a o' ha]
  · intro fa
    have hq : (execR h s).2.1.query = h.objs.length := rfl
    refine planView_set_of_ne_addr _ _ _ _ ?_
    intro st hst hcon
    have hb : st.addr = some (h.objs.length) := by rw [hcon, hq]
    have : h.objs.length < h.objs.length :=
      compileR_addr_below h s hwf st hst (h.objs.length) hb
    omega

/-- Witness for C7 (amended): instantiated at the counterexample's heap and
builder state right before `exec`. -/
theorem c7_stages_reference_live_objects_witness :
    (RStage.lookup 1 ∈
        (execR ⟨[[], c7jObj]⟩ ⟨0, none, none, none, none, some 1, none, none, true⟩).2.2 ∧
      ∀ o', stageView
          ((execR ⟨[[], c7jObj]⟩ ⟨0, none, none, none, none, some 1, none, none, true⟩).1.set 1 o')
          (RStage.lookup 1) = Stage.lookup o') ∧
    ∀ fa, planView
        (whereR (execR ⟨[[], c7jObj]⟩ ⟨0, none, none, none, none, some 1, none, none, true⟩).1
          (execR ⟨[[], c7jObj]⟩ ⟨0, none, none, none, none, some 1, none, none, true⟩).2.1 fa).1
        (execR ⟨[[], c7jObj]⟩ ⟨0, none, none, none, none, some 1, none, none, true⟩).2.2 =
      planView (execR ⟨[[], c7jObj]⟩ ⟨0, none, none, none, none, some 1, none, none, true⟩).1
        (execR ⟨[[], c7jObj]⟩ ⟨0, none, none, none, none, some 1, none, none, true⟩).2.2 := by
  have h := c7_stages_reference_live_objects ⟨[[], c7jObj]⟩
    ⟨0, none, none, none, none, some 1, none, none, true⟩
    (by
      refine ⟨by simp, ?_, ?_, ?_, ?_, ?_⟩ <;>
        (intro a ha; simp_all; try omega))
  exact ⟨h.1 1 rfl, h.2⟩

end MongoQL
